import Mathlib

/-
Verification of the skein knowledge-graph store (src/src/project_kg and
src/src/skein) against its specification.

Shallow embedding conventions:
- SQLite tables are lists of rows in insertion (rowid) order; SELECT ... fetchone
  is List.find?, WHERE filters are List.filter.
- Python floats carrying scores and weights are modelled as rationals; the
  float32 cosine-similarity path of the embedding engine, whose observable
  behaviour depends on IEEE-754 rounding, is left outside the embedding.
- uuid4 values, the current time, embedding vectors and parsed file metadata are
  inputs to the modelled operations (the code obtains them from the environment).
- Fallible SQL statements (plain INSERT hitting a UNIQUE or FOREIGN KEY
  constraint) return Except String.
-/

/-- A row of the nodes table (project_kg/models.py Node, db.py SCHEMA_SQL). -/
structure Node where
  id : String
  type : String
  title : String
  body : String
  source : String := "manual"
  source_id : Option String := none
  source_uri : Option String := none
  project : Option String := none
  created_at : String
  updated_at : String
  archived : Bool := false
deriving DecidableEq

/-- A row of the edges table; metadata holds the JSON text stored in the
metadata column (json.dumps output), if any. -/
structure Edge where
  id : String
  source_id : String
  target_id : String
  type : String
  weight : ℚ := 1
  metadata : Option String := none
  created_at : String
deriving DecidableEq

/-- A row of the embeddings table (node_id is its primary key). -/
structure EmbeddingRow where
  node_id : String
  vector : List ℚ
  model : String
  created_at : String
deriving DecidableEq

/-- A row of the sync_state table, keyed by (connector, source_key). -/
structure SyncState where
  connector : String
  source_key : String
  last_sync : Option String := none
  cursor : Option String := none
deriving DecidableEq

/-- Search result as produced by project_kg/search.py. -/
structure SearchResult where
  node : Node
  score : ℚ
  match_type : String := ""
deriving DecidableEq

/-- Per-scope sync outcome (project_kg/connectors/base.py SyncResult). -/
structure SyncResult where
  connector : String
  source_key : String
  nodes_created : Nat := 0
  nodes_updated : Nat := 0
  edges_created : Nat := 0
  errors : List String := []
deriving DecidableEq

/-- The node/edge/embedding state of one database (KGDB connection). -/
structure DBState where
  nodes : List Node
  edges : List Edge
  embeddings : List EmbeddingRow
deriving DecidableEq

/-- Predicate for the dedup key: WHERE source = ? AND source_id = ?. -/
def key_match (source : String) (source_id : Option String) (n : Node) : Bool :=
  n.source = source ∧ n.source_id = source_id

/-- KGDB.find_node_by_source: returns none for a falsy source_id (None or the
empty string), otherwise the first row matching the (source, source_id) key. -/
def find_node_by_source (nodes : List Node) (source : String)
    (source_id : Option String) : Option Node :=
  match source_id with
  | none => none
  | some sid =>
    if sid = "" then none
    else nodes.find? (key_match source (some sid))

/-- KGDB.insert_node: plain INSERT; violating the primary key on id raises. -/
def insert_node (nodes : List Node) (node : Node) : Except String (List Node) :=
  if nodes.any (fun n => n.id = node.id) then
    .error "UNIQUE constraint failed: nodes.id"
  else
    .ok (nodes ++ [node])

/-- The UPDATE statement of KGDB.upsert_node applied to one row: only the
mutable columns (type, title, body, source_uri, project, updated_at) change. -/
def apply_node_update (node : Node) (n : Node) : Node :=
  { n with type := node.type, title := node.title, body := node.body,
           source_uri := node.source_uri, project := node.project,
           updated_at := node.updated_at }

/-- KGDB.upsert_node: update in place when the (source, source_id) key resolves
to an existing row, keeping its id and created_at; otherwise insert. Returns
the row list, the reported node and the created flag. -/
def upsert_node (nodes : List Node) (node : Node) :
    Except String (List Node × Node × Bool) :=
  match find_node_by_source nodes node.source node.source_id with
  | some existing =>
    .ok (nodes.map (fun n => if n.id = existing.id then apply_node_update node n else n),
         { node with id := existing.id, created_at := existing.created_at }, false)
  | none => (insert_node nodes node).map (fun ns => (ns, node, true))

/-- Whether a node with the given id exists (foreign-key target check). -/
def node_exists (nodes : List Node) (id : String) : Bool :=
  nodes.any (fun n => n.id = id)

/-- Whether the edges table already holds a row with this
(source_id, target_id, type) triple (the UNIQUE constraint). -/
def edge_triple_exists (edges : List Edge) (e : Edge) : Bool :=
  edges.any (fun x => x.source_id = e.source_id ∧ x.target_id = e.target_id ∧ x.type = e.type)

/-- KGDB.insert_edge: plain INSERT INTO edges; a duplicate id or a duplicate
(source_id, target_id, type) triple raises, as does a missing endpoint
(PRAGMA foreign_keys=ON). -/
def insert_edge (nodes : List Node) (edges : List Edge) (e : Edge) :
    Except String (List Edge) :=
  if edges.any (fun x => x.id = e.id) then
    .error "UNIQUE constraint failed: edges.id"
  else if edge_triple_exists edges e then
    .error "UNIQUE constraint failed: edges.source_id, edges.target_id, edges.type"
  else if ¬ (node_exists nodes e.source_id ∧ node_exists nodes e.target_id) then
    .error "FOREIGN KEY constraint failed"
  else
    .ok (edges ++ [e])

/-- KGDB.upsert_edge: INSERT OR IGNORE INTO edges; uniqueness conflicts on the
id or on the (source_id, target_id, type) triple are ignored (the statement is
a no-op), while a foreign-key violation still raises. -/
def upsert_edge (nodes : List Node) (edges : List Edge) (e : Edge) :
    Except String (List Edge) :=
  if edges.any (fun x => x.id = e.id) then
    .ok edges
  else if edge_triple_exists edges e then
    .ok edges
  else if ¬ (node_exists nodes e.source_id ∧ node_exists nodes e.target_id) then
    .error "FOREIGN KEY constraint failed"
  else
    .ok (edges ++ [e])

/-- KGDB.store_embedding: INSERT OR REPLACE keyed by node_id. -/
def store_embedding (embeddings : List EmbeddingRow) (node_id : String)
    (vector : List ℚ) (model now : String) : List EmbeddingRow :=
  (embeddings.filter (fun e => ¬ e.node_id = node_id)) ++
    [{ node_id := node_id, vector := vector, model := model, created_at := now }]

/-- KGDB.get_all_embeddings: with a truthy node_ids argument, the query selects
from embeddings alone (no join against nodes, hence no archived filter); with
node_ids absent or empty (falsy), it joins nodes and keeps archived = 0 rows. -/
def get_all_embeddings (nodes : List Node) (embeddings : List EmbeddingRow)
    (node_ids : Option (List String)) : List (String × List ℚ) :=
  if node_ids.getD [] ≠ [] then
    (embeddings.filter (fun e => e.node_id ∈ node_ids.getD [])).map
      (fun e => (e.node_id, e.vector))
  else
    (embeddings.filter
      (fun e => nodes.any (fun n => n.id = e.node_id ∧ n.archived = false))).map
      (fun e => (e.node_id, e.vector))

/-- KGDB.get_edges with direction both: rows with source_id = node_id followed
by rows with target_id = node_id (a self-loop therefore appears twice). -/
def get_edges (edges : List Edge) (node_id : String) : List Edge :=
  (edges.filter (fun e => e.source_id = node_id)) ++
    (edges.filter (fun e => e.target_id = node_id))

/-- The for-loop of KGDB.get_neighbors: one recursive call per round, carrying
(visited, next_frontier, all_edges); stops early when a frontier is empty.
Python sets are modelled as duplicate-free lists in insertion order. -/
def bfs_loop (edges : List Edge) :
    Nat → List String → List String → List Edge → List String × List Edge
  | 0, visited, _, acc => (visited, acc)
  | d + 1, visited, frontier, acc =>
    let step := frontier.foldl
      (fun (st : List String × List String × List Edge) nid =>
        (get_edges edges nid).foldl
          (fun (st2 : List String × List String × List Edge) e =>
            let acc2 := st2.2.2 ++ [e]
            let other := if e.source_id = nid then e.target_id else e.source_id
            if other ∈ st2.1 then (st2.1, st2.2.1, acc2)
            else (st2.1 ++ [other], st2.2.1 ++ [other], acc2))
          st)
      (visited, ([] : List String), acc)
    if step.2.1 = [] then (step.1, step.2.2)
    else bfs_loop edges d step.1 step.2.1 step.2.2

/-- KGDB.get_neighbors: BFS from node_id for depth rounds, then resolve every
visited id through get_node, dropping ids that do not resolve. -/
def get_neighbors (nodes : List Node) (edges : List Edge) (node_id : String)
    (depth : Nat) : List Node × List Edge :=
  let out := bfs_loop edges depth [node_id] [node_id] []
  (out.1.filterMap (fun nid => nodes.find? (fun n => n.id = nid)), out.2)

/-- KGDB.get_sync_state: first row matching (connector, source_key). -/
def get_sync_state (table : List SyncState) (connector source_key : String) :
    Option SyncState :=
  table.find? (fun s => s.connector = connector ∧ s.source_key = source_key)

/-- KGDB.set_sync_state: INSERT OR REPLACE keyed by (connector, source_key). -/
def set_sync_state (table : List SyncState) (s : SyncState) : List SyncState :=
  (table.filter (fun x => ¬ (x.connector = s.connector ∧ x.source_key = s.source_key))) ++ [s]

/-- An edge request passed to skein_add (server.py): target, type, optional
weight, plus the uuid4 the handler generates for the new row. -/
structure EdgeSpec where
  edge_id : String
  target_id : String
  type : String
  weight : ℚ := 1
deriving DecidableEq

/-- The skein_add tool handler (skein/server.py): builds a node with a fresh
uuid and created_at = updated_at = now, INSERTs it unconditionally via
insert_node (no dedup lookup), stores the embedding, then INSERTs the requested
edges via insert_edge. The uuid, timestamp and embedding vector are inputs.
Returns the new state and the edges_created count. -/
def skein_add (st : DBState) (node_id now : String)
    (type title body source : String)
    (source_id source_uri project : Option String)
    (edges : List EdgeSpec) (vector : List ℚ) (model : String) :
    Except String (DBState × Nat) :=
  let node : Node :=
    { id := node_id, type := type, title := title, body := body,
      source := source, source_id := source_id, source_uri := source_uri,
      project := project, created_at := now, updated_at := now }
  match insert_node st.nodes node with
  | .error e => .error e
  | .ok nodes2 =>
    let embeddings2 := store_embedding st.embeddings node_id vector model now
    match edges.foldlM
        (fun es spec => insert_edge nodes2 es
          { id := spec.edge_id, source_id := node_id, target_id := spec.target_id,
            type := spec.type, weight := spec.weight, created_at := now }) st.edges with
    | .error e => .error e
    | .ok edges2 =>
      .ok ({ nodes := nodes2, edges := edges2, embeddings := embeddings2 }, edges.length)

/-- Python min over a non-empty list (0 for the empty list, unused there). -/
def list_min : List ℚ → ℚ
  | [] => 0
  | x :: xs => xs.foldl min x

/-- Python max over a non-empty list (0 for the empty list, unused there). -/
def list_max : List ℚ → ℚ
  | [] => 0
  | x :: xs => xs.foldl max x

/-- The normalization stage of _search_fts (search.py): given the raw
(node_id, bm25) pairs from the lexical index (lower raw = better), map each
raw score to (max - raw) / (max - min) when the range is positive, and to 1.0
when all scores coincide. The database call and its exception guard are the
boundary; this takes the fetched raw list. -/
def _search_fts (raw : List (String × ℚ)) : List (String × ℚ) :=
  match raw with
  | [] => []
  | _ :: _ =>
    let min_score := list_min (raw.map Prod.snd)
    let max_score := list_max (raw.map Prod.snd)
    let score_range := max_score - min_score
    raw.map (fun p =>
      (p.1, if score_range > 0 then (max_score - p.2) / score_range else 1))

/-- Weight of the lexical signal (search.py FTS_WEIGHT = 0.4). -/
def FTS_WEIGHT : ℚ := 4 / 10

/-- Weight of the vector signal (search.py VECTOR_WEIGHT = 0.6). -/
def VECTOR_WEIGHT : ℚ := 6 / 10

/-- Membership test of a Python dict keyed by node id. -/
def dict_has {α : Type} (c : List (String × α)) (k : String) : Bool :=
  c.any (fun p => p.1 = k)

/-- Lookup in a Python dict keyed by node id (first matching entry; the
construction below keeps keys duplicate-free, as a dict does). -/
def dict_lookup {α : Type} (c : List (String × α)) (k : String) : Option α :=
  (c.find? (fun p => p.1 = k)).map Prod.snd

/-- Assignment d[k] = v on a Python dict: overwrite in place if the key exists
(keeping its position), else append. -/
def dict_set {α : Type} (c : List (String × α)) (k : String) (v : α) :
    List (String × α) :=
  if dict_has c k then c.map (fun p => if p.1 = k then (p.1, v) else p)
  else c ++ [(k, v)]

/-- The two merge loops of search (search.py lines 32-41): first every lexical
candidate with vector component 0.0, then each vector candidate either updates
the vector component of an existing entry or is appended with lexical 0.0. -/
def combine_scores (fts_results vector_results : List (String × ℚ)) :
    List (String × ℚ × ℚ) :=
  let c1 := fts_results.foldl (fun c p => dict_set c p.1 (p.2, (0 : ℚ))) []
  vector_results.foldl
    (fun c p =>
      if dict_has c p.1 then c.map (fun q => if q.1 = p.1 then (q.1, q.2.1, p.2) else q)
      else c ++ [(p.1, ((0 : ℚ), p.2))])
    c1

/-- Insert into a descending-sorted list, after existing entries of equal key
(the placement a stable sort gives later elements). -/
def insert_desc {α : Type} (key : α → ℚ) (x : α) : List α → List α
  | [] => [x]
  | y :: ys => if key y < key x then x :: y :: ys else y :: insert_desc key x ys

/-- Python list.sort(key=..., reverse=True): a stable sort by key, descending.
Modelled as stable insertion sort, which has the same semantics. -/
def sort_desc {α : Type} (key : α → ℚ) (l : List α) : List α :=
  l.foldl (fun acc x => insert_desc key x acc) []

/-- search (search.py): merge the two candidate lists, weight
fts * 0.4 + vector * 0.6, sort descending, truncate to limit, then resolve each
id through get_node and drop ids that no longer resolve. The two signal lists
are the outputs of _search_fts and _search_vector; get_node is the node lookup
of the database. -/
def search (fts_results vector_results : List (String × ℚ)) (limit : Nat)
    (get_node : String → Option Node) : List SearchResult :=
  let combined := combine_scores fts_results vector_results
  let scored := combined.map (fun q => (q.1, q.2.1 * FTS_WEIGHT + q.2.2 * VECTOR_WEIGHT))
  let top := (sort_desc (fun x => x.2) scored).take limit
  top.filterMap (fun p => (get_node p.1).map
    (fun n => { node := n, score := p.2, match_type := "combined" }))

/-- _recency_boost (search.py): full boost up to 7 days of age, zero from 90
days, linear in between; age_days is the parsed age of updated_at in days, none
when datetime.fromisoformat raised (the except branch returning 0.0). -/
def _recency_boost (age_days : Option ℚ) (max_boost : ℚ) : ℚ :=
  match age_days with
  | none => 0
  | some age =>
    if age ≤ 7 then max_boost
    else if age ≥ 90 then 0
    else max_boost * (90 - age) / (90 - 7)

/-- The cross-project append loop of context_search (search.py lines 154-160):
seen_ids starts as the ids of the project-scoped results; each cross result
whose id is unseen is appended and its id added to seen_ids. -/
def cross_append (results cross_results : List SearchResult) : List SearchResult :=
  (cross_results.foldl
    (fun (acc : List SearchResult × List String) r =>
      if r.node.id ∈ acc.2 then acc else (acc.1 ++ [r], acc.2 ++ [r.node.id]))
    (results, results.map (fun r => r.node.id))).1

/-- Reference form of the appended cross-project tail: keep each result whose
id is not yet seen, accumulating seen ids left to right. -/
def cross_extras (seen : List String) : List SearchResult → List SearchResult
  | [] => []
  | r :: rs =>
    if r.node.id ∈ seen then cross_extras seen rs
    else r :: cross_extras (seen ++ [r.node.id]) rs

/-- context_search (search.py): project-scoped results, plus — when a project
was given — the unscoped cross-project results appended id-unseen-only; then
every score gets the recency bonus, and the list is re-sorted descending and
truncated to limit. The two search calls are inputs (results from the
project-scoped search, cross_results from the unscoped one); age_of gives the
parsed age in days of an updated_at timestamp, none when unparseable. -/
def context_search (results cross_results : List SearchResult)
    (project_given : Bool) (limit : Nat) (recency_boost : ℚ)
    (age_of : String → Option ℚ) : List SearchResult :=
  let merged := if project_given then cross_append results cross_results else results
  let boosted := merged.map
    (fun r => { r with score := r.score + _recency_boost (age_of r.node.updated_at) recency_boost })
  (sort_desc (fun r => r.score) boosted).take limit

/-- A markdown file of one WCP scope: name (md_path.name), path (str(path),
used in artifact error labels) and its mtime as an ISO timestamp, precomputed
the way the skip check formats it. -/
structure MdFile where
  name : String
  path : String
  mtime_iso : String
deriving DecidableEq

/-- Effect of one _sync_work_item or _sync_artifact call on the store: the new
store, the counter increments applied to the scope result before any failure,
and the exception message when one was raised (partial mutations persist). -/
structure DocEffect (σ : Type) where
  store : σ
  created : Nat := 0
  updated : Nat := 0
  edges : Nat := 0
  err : Option String := none

/-- The cutoff of WCPConnector._sync_namespace:
last_sync = sync_state.last_sync if sync_state and not full else None. -/
def wcp_last_sync (table : List SyncState) (ns : String) (full : Bool) :
    Option String :=
  match get_sync_state table "wcp" ns with
  | some s => if full then none else s.last_sync
  | none => none

/-- The skip check inside the document loops: when an incremental cutoff is
present, skip files whose mtime ISO string sorts before it. -/
def wcp_skip (last_sync : Option String) (full : Bool) (f : MdFile) : Bool :=
  match last_sync with
  | some ls => ¬ full ∧ f.mtime_iso < ls
  | none => false

/-- One document loop of _sync_namespace: for each non-skipped file run the
per-document processor; a raised exception is caught, recorded on the scope
result as "label: message", and the loop continues with the next file. -/
def doc_pass {σ : Type} (proc : σ → MdFile → DocEffect σ) (label : MdFile → String)
    (skip : MdFile → Bool) :
    σ → SyncResult → List MdFile → σ × SyncResult
  | store, res, [] => (store, res)
  | store, res, f :: fs =>
    if skip f then doc_pass proc label skip store res fs
    else
      let e := proc store f
      doc_pass proc label skip e.store
        { res with
          nodes_created := res.nodes_created + e.created,
          nodes_updated := res.nodes_updated + e.updated,
          edges_created := res.edges_created + e.edges,
          errors := res.errors ++
            (match e.err with
             | some m => [label f ++ ": " ++ m]
             | none => []) }
        fs

/-- WCPConnector._sync_namespace: read the scope cursor, loop over the
top-level work-item files and then over the artifact files of the item
subdirectories (flattened in directory order), and finally set the scope
sync state to the current time. The store σ holds whatever the per-document
processors touch (nodes, edges, embeddings); the sync_state table is separate,
matching the schema. proc_work and proc_artifact embed _sync_work_item and
_sync_artifact; work-item error labels use the file name, artifact labels the
full path, as in the two except blocks. -/
def sync_namespace {σ : Type} (table : List SyncState) (store : σ)
    (ns : String) (full : Bool) (now : String)
    (md_files artifact_files : List MdFile)
    (proc_work proc_artifact : σ → MdFile → DocEffect σ) :
    List SyncState × σ × SyncResult :=
  let result0 : SyncResult := { connector := "wcp", source_key := ns }
  let cutoff := wcp_last_sync table ns full
  let out1 := doc_pass proc_work (fun f => f.name) (wcp_skip cutoff full)
    store result0 md_files
  let out2 := doc_pass proc_artifact (fun f => f.path) (wcp_skip cutoff full)
    out1.1 out1.2 artifact_files
  (set_sync_state table
     { connector := "wcp", source_key := ns, last_sync := some now, cursor := some now },
   out2.1, out2.2)

/-- Reference recursion: the error strings a document loop appends, in order —
one "label: message" entry per non-skipped file whose processor raised,
threading the store through the surviving mutations. -/
def doc_errors {σ : Type} (proc : σ → MdFile → DocEffect σ) (label : MdFile → String)
    (skip : MdFile → Bool) : σ → List MdFile → List String
  | _, [] => []
  | store, f :: fs =>
    if skip f then doc_errors proc label skip store fs
    else
      let e := proc store f
      (match e.err with
       | some m => [label f ++ ": " ++ m]
       | none => []) ++ doc_errors proc label skip e.store fs

/-- Reference recursion: the store after a document loop — every non-skipped
file is processed, whether or not earlier files raised. -/
def doc_store {σ : Type} (proc : σ → MdFile → DocEffect σ)
    (skip : MdFile → Bool) : σ → List MdFile → σ
  | store, [] => store
  | store, f :: fs =>
    if skip f then doc_store proc skip store fs
    else doc_store proc skip (proc store f).store fs

/-! The cosine-similarity path of EmbeddingEngine (cosine_similarity,
search_vectors) and the (s + 1) / 2 rescaling in _search_vector run in
IEEE-754 float32: embeddings are stored and loaded as float32, and
np.linalg.norm of a float32 array is a float32 scalar to which the 1e-10
epsilon is added — where it is absorbed by rounding at unit scale
(float32 spacing at 1.0 is about 1.2e-7). That arithmetic is not modelled
here: a shallow embedding over exact rationals or reals would misdecide
exactly the properties that depend on it. -/

/-! Helper lemmas (shared across claims). -/

/-- A filter that returns a single element determines find?. -/
theorem find?_of_filter_singleton {α : Type} {p : α → Bool} {l : List α} {a : α}
    (h : l.filter p = [a]) : l.find? p = some a := by
  induction l with
  | nil => simp at h
  | cons x xs ih =>
    by_cases hx : p x = true
    · rw [List.filter_cons_of_pos hx] at h
      obtain ⟨rfl, -⟩ := List.cons.injEq .. ▸ h
      exact List.find?_cons_of_pos _ hx
    · rw [List.filter_cons_of_neg (by simpa using hx)] at h
      rw [List.find?_cons_of_neg _ (by simpa using hx)]
      exact ih h

/-- The in-place UPDATE of upsert_node does not change the dedup key columns. -/
theorem key_match_apply_node_update (source : String) (sid : Option String)
    (node n : Node) : key_match source sid (apply_node_update node n) = key_match source sid n := rfl

/-- Initial empty database for the C1 scenario. -/
def c1_init : DBState := { nodes := [], edges := [], embeddings := [] }

/-- One createNode call (skein_add) with the dedup key (wcp, X), no edges. -/
def c1_add (st : DBState) (uuid : String) : Except String (DBState × Nat) :=
  skein_add st uuid "2026-01-01T00:00:00+00:00" "note" "Title" "Body" "wcp"
    (some "X") none none [] [] "test-model"

/-- Claim C1 counterexample: creating a node via the createNode surface
(skein_add) twice with the same (source, source_id) = (wcp, X) leaves two
stored nodes for that key, not one — skein_add INSERTs unconditionally and
never consults the dedup key. -/
theorem c1_counterexample :
    ((c1_add c1_init "id-1").bind (fun p => c1_add p.1 "id-2")).map
      (fun p => (p.1.nodes.filter (key_match "wcp" (some "X"))).length) = .ok 2 := rfl

/-- Claim C1 (amended): upserting via the storage layer's upsert_node with a
non-null, non-empty source_id whose (source, source_id) key resolves to exactly
one stored node updates that node in place — only the mutable fields type,
title, body, source_uri, project, updated_at change, its id and created_at are
unchanged, exactly one node for the key remains, and created = false is
reported; a node with a falsy source_id (None or empty) always inserts a fresh
node; the createNode surface (skein_add), by contrast, always inserts a fresh
node regardless of source_id. -/
theorem c1_upsert_dedup :
    (∀ (nodes : List Node) (node existing : Node) (sid : String),
      node.source_id = some sid → sid ≠ "" →
      nodes.filter (key_match node.source (some sid)) = [existing] →
      upsert_node nodes node =
        .ok (nodes.map (fun n => if n.id = existing.id then apply_node_update node n else n),
             { node with id := existing.id, created_at := existing.created_at }, false) ∧
      (nodes.map (fun n => if n.id = existing.id then apply_node_update node n else n)).filter
          (key_match node.source (some sid)) = [apply_node_update node existing] ∧
      (apply_node_update node existing).id = existing.id ∧
      (apply_node_update node existing).created_at = existing.created_at) ∧
    (∀ (nodes : List Node) (node : Node),
      (node.source_id = none ∨ node.source_id = some "") →
      nodes.all (fun n => ¬ n.id = node.id) →
      upsert_node nodes node = .ok (nodes ++ [node], node, true)) ∧
    (∀ (st : DBState) (node_id now type title body source : String)
       (source_id source_uri project : Option String) (vector : List ℚ) (model : String),
      st.nodes.all (fun n => ¬ n.id = node_id) →
      skein_add st node_id now type title body source source_id source_uri project
          [] vector model =
        .ok ({ nodes := st.nodes ++
                 [{ id := node_id, type := type, title := title, body := body,
                    source := source, source_id := source_id, source_uri := source_uri,
                    project := project, created_at := now, updated_at := now }],
               edges := st.edges,
               embeddings := store_embedding st.embeddings node_id vector model now }, 0)) := by
  refine ⟨?_, ?_, ?_⟩
  · intro nodes node existing sid hsid hne hfilter
    have hfind : nodes.find? (key_match node.source (some sid)) = some existing :=
      find?_of_filter_singleton hfilter
    have hup : upsert_node nodes node =
        .ok (nodes.map (fun n => if n.id = existing.id then apply_node_update node n else n),
             { node with id := existing.id, created_at := existing.created_at }, false) := by
      unfold upsert_node find_node_by_source
      rw [hsid]
      simp [hne, hfind]
    refine ⟨hup, ?_, rfl, rfl⟩
    have hpred : ∀ n : Node,
        key_match node.source (some sid)
          (if n.id = existing.id then apply_node_update node n else n) =
        key_match node.source (some sid) n := by
      intro n
      by_cases h : n.id = existing.id <;> simp [h, key_match_apply_node_update]
    calc (nodes.map (fun n => if n.id = existing.id then apply_node_update node n else n)).filter
          (key_match node.source (some sid))
        = (nodes.filter (key_match node.source (some sid))).map
            (fun n => if n.id = existing.id then apply_node_update node n else n) := by
          rw [List.filter_map]
          congr 1
          exact List.filter_congr (fun n _ => hpred n)
      _ = [apply_node_update node existing] := by rw [hfilter]; simp
  · intro nodes node hfalsy hall
    have hnone : find_node_by_source nodes node.source node.source_id = none := by
      rcases hfalsy with h | h <;> simp [find_node_by_source, h]
    have hnoid : nodes.any (fun n => n.id = node.id) = false := by
      simp only [List.all_eq_true] at hall
      simp only [List.any_eq_false]
      intro n hn
      simpa using hall n hn
    unfold upsert_node
    rw [hnone]
    simp [insert_node, hnoid]
    rfl
  · intro st node_id now type title body source source_id source_uri project vector model hall
    have hnoid : st.nodes.any (fun n => n.id = node_id) = false := by
      simp only [List.all_eq_true] at hall
      simp only [List.any_eq_false]
      intro n hn
      simpa using hall n hn
    unfold skein_add
    simp [insert_node, hnoid]
    rfl

/-- Existing stored node for the C1 witness scenario. -/
def c1w_n0 : Node :=
  { id := "n-0", type := "note", title := "T1", body := "B1", source := "wcp",
    source_id := some "X", created_at := "t0", updated_at := "t0" }

/-- Incoming node with the same dedup key for the C1 witness scenario. -/
def c1w_node : Node :=
  { id := "n-1", type := "decision", title := "T2", body := "B2", source := "wcp",
    source_id := some "X", source_uri := some "u", project := some "p",
    created_at := "t1", updated_at := "t1" }

/-- Witness for c1_upsert_dedup: the dedup branch at a concrete store. -/
theorem c1_upsert_dedup_witness :
    ([c1w_n0].filter (key_match c1w_node.source (some "X")) = [c1w_n0] ∧
     upsert_node [c1w_n0] c1w_node =
       .ok ([c1w_n0].map (fun n => if n.id = c1w_n0.id then apply_node_update c1w_node n else n),
            { c1w_node with id := c1w_n0.id, created_at := c1w_n0.created_at }, false) ∧
     ([c1w_n0].map (fun n => if n.id = c1w_n0.id then apply_node_update c1w_node n else n)).filter
         (key_match c1w_node.source (some "X")) = [apply_node_update c1w_node c1w_n0] ∧
     (apply_node_update c1w_node c1w_n0).id = c1w_n0.id ∧
     (apply_node_update c1w_node c1w_n0).created_at = c1w_n0.created_at) :=
  ⟨by decide, c1_upsert_dedup.1 [c1w_n0] c1w_node c1w_n0 "X" rfl (by decide) (by decide)⟩

/-- Two endpoint nodes for the C2 scenario. -/
def c2_nodes : List Node :=
  [{ id := "a", type := "note", title := "ta", body := "ba", created_at := "c", updated_at := "u" },
   { id := "b", type := "note", title := "tb", body := "bb", created_at := "c", updated_at := "u" }]

/-- A stored edge for the C2 scenario. -/
def c2_e1 : Edge :=
  { id := "e1", source_id := "a", target_id := "b", type := "relates_to", created_at := "c" }

/-- A fresh edge with the same (source_id, target_id, type) triple. -/
def c2_e2 : Edge :=
  { id := "e2", source_id := "a", target_id := "b", type := "relates_to", created_at := "c2" }

/-- Claim C2 counterexample: KGDB.insert_edge is a plain INSERT — inserting a
second edge with the same (source_id, target_id, type) triple raises a
uniqueness error rather than being a no-op. -/
theorem c2_counterexample :
    insert_edge c2_nodes [c2_e1] c2_e2 =
      .error "UNIQUE constraint failed: edges.source_id, edges.target_id, edges.type" := rfl

/-- Claim C2 (amended): when an edge with the same (source_id, target_id, type)
triple already exists, the INSERT OR IGNORE path (KGDB.upsert_edge) is a no-op
— no error, no second row, the stored edge set unchanged — while the plain
INSERT path (KGDB.insert_edge, used by the skein_add and skein_connect tool
handlers) raises a uniqueness error instead of inserting. -/
theorem c2_edge_idempotence (nodes : List Node) (edges : List Edge) (e : Edge)
    (hdup : edge_triple_exists edges e = true) :
    upsert_edge nodes edges e = .ok edges ∧
    (insert_edge nodes edges e).isOk = false := by
  constructor
  · unfold upsert_edge
    by_cases hid : edges.any (fun x => x.id = e.id) = true <;> simp [hid, hdup]
  · unfold insert_edge
    by_cases hid : edges.any (fun x => x.id = e.id) = true <;>
      simp [hid, hdup, Except.isOk, Except.toBool]

/-- Witness for c2_edge_idempotence at the concrete duplicate-triple store. -/
theorem c2_edge_idempotence_witness :
    edge_triple_exists [c2_e1] c2_e2 = true ∧
    (upsert_edge c2_nodes [c2_e1] c2_e2 = .ok [c2_e1] ∧
     (insert_edge c2_nodes [c2_e1] c2_e2).isOk = false) :=
  ⟨by decide, c2_edge_idempotence c2_nodes [c2_e1] c2_e2 (by decide)⟩

/-- The single node of the self-loop scenario. -/
def c9_loop_node : Node :=
  { id := "seed", type := "note", title := "t", body := "b", created_at := "c", updated_at := "u" }

/-- The self-loop edge of the self-loop scenario. -/
def c9_loop_edge : Edge :=
  { id := "e-loop", source_id := "seed", target_id := "seed", type := "relates_to", created_at := "c" }

/-- The isolated node of the isolated scenario. -/
def c9_iso_node : Node :=
  { id := "n0", type := "note", title := "t", body := "b", created_at := "c", updated_at := "u" }

/-- The four nodes of the path graph A - B - C - D. -/
def c9_path_nodes : List Node :=
  [{ id := "A", type := "note", title := "t", body := "b", created_at := "c", updated_at := "u" },
   { id := "B", type := "note", title := "t", body := "b", created_at := "c", updated_at := "u" },
   { id := "C", type := "note", title := "t", body := "b", created_at := "c", updated_at := "u" },
   { id := "D", type := "note", title := "t", body := "b", created_at := "c", updated_at := "u" }]

/-- The three edges of the path graph A - B - C - D. -/
def c9_path_edges : List Edge :=
  [{ id := "eAB", source_id := "A", target_id := "B", type := "relates_to", created_at := "c" },
   { id := "eBC", source_id := "B", target_id := "C", type := "relates_to", created_at := "c" },
   { id := "eCD", source_id := "C", target_id := "D", type := "relates_to", created_at := "c" }]

/-- Claim C9: on a graph whose only edge is a self-loop, get_neighbors with
depth 3 returns only the seed node and no edge other than the self-loop; on an
isolated node it returns only that node and no edges; on the path graph
A - B - C - D, get_neighbors from A with depth 2 returns exactly the nodes
A, B, C and excludes D. -/
theorem c9_bfs_scenarios :
    ((get_neighbors [c9_loop_node] [c9_loop_edge] "seed" 3).1.map Node.id = ["seed"] ∧
     ∀ e ∈ (get_neighbors [c9_loop_node] [c9_loop_edge] "seed" 3).2, e = c9_loop_edge) ∧
    ((get_neighbors [c9_iso_node] [] "n0" 3).1.map Node.id = ["n0"] ∧
     (get_neighbors [c9_iso_node] [] "n0" 3).2 = []) ∧
    ((get_neighbors c9_path_nodes c9_path_edges "A" 2).1.map Node.id = ["A", "B", "C"] ∧
     "D" ∉ (get_neighbors c9_path_nodes c9_path_edges "A" 2).1.map Node.id) := by
  decide

/-- A stored but archived node for the C10 scenario. -/
def c10_node : Node :=
  { id := "n1", type := "note", title := "t", body := "b", created_at := "c",
    updated_at := "u", archived := true }

/-- The embedding row of the archived node. -/
def c10_emb : EmbeddingRow :=
  { node_id := "n1", vector := [1], model := "m", created_at := "c" }

/-- Claim C10 counterexample: a getAllEmbeddings call restricted to explicit
nodeIds returns the vector of an archived node — the restricted query never
joins against nodes, so the archived flag is not consulted. -/
theorem c10_counterexample :
    ("n1", [(1 : ℚ)]) ∈ get_all_embeddings [c10_node] [c10_emb] (some ["n1"]) ∧
    c10_node.archived = true := by
  decide

/-- Claim C10 (amended): every (id, vector) pair returned by an unrestricted
getAllEmbeddings call (nodeIds absent, or present but empty and hence falsy)
refers to a non-archived stored node; a call restricted to a non-empty nodeIds
list instead returns exactly the stored vectors whose node_id is listed,
regardless of the archived flag. -/
theorem c10_embeddings_archived :
    (∀ (nodes : List Node) (embeddings : List EmbeddingRow) (p : String × List ℚ),
      p ∈ get_all_embeddings nodes embeddings none →
      ∃ n, n ∈ nodes ∧ n.id = p.1 ∧ n.archived = false) ∧
    (∀ (nodes : List Node) (embeddings : List EmbeddingRow) (p : String × List ℚ),
      p ∈ get_all_embeddings nodes embeddings (some []) →
      ∃ n, n ∈ nodes ∧ n.id = p.1 ∧ n.archived = false) ∧
    (∀ (nodes : List Node) (embeddings : List EmbeddingRow) (ids : List String)
       (p : String × List ℚ), ids ≠ [] →
      (p ∈ get_all_embeddings nodes embeddings (some ids) ↔
        ∃ e, e ∈ embeddings ∧ e.node_id ∈ ids ∧ e.node_id = p.1 ∧ e.vector = p.2)) := by
  refine ⟨?_, ?_, ?_⟩
  · intro nodes embeddings p hp
    simp only [get_all_embeddings, Option.getD, ne_eq, not_true_eq_false, if_false,
      List.mem_map, List.mem_filter] at hp
    obtain ⟨e, ⟨-, he⟩, rfl⟩ := hp
    simp only [List.any_eq_true, decide_eq_true_eq] at he
    obtain ⟨n, hn, hid, harch⟩ := he
    exact ⟨n, hn, hid, harch⟩
  · intro nodes embeddings p hp
    simp only [get_all_embeddings, Option.getD, ne_eq, not_true_eq_false, if_false,
      List.mem_map, List.mem_filter] at hp
    obtain ⟨e, ⟨-, he⟩, rfl⟩ := hp
    simp only [List.any_eq_true, decide_eq_true_eq] at he
    obtain ⟨n, hn, hid, harch⟩ := he
    exact ⟨n, hn, hid, harch⟩
  · intro nodes embeddings ids p hne
    simp only [get_all_embeddings, Option.getD, ne_eq, hne, not_false_eq_true, if_true,
      List.mem_map, List.mem_filter]
    constructor
    · rintro ⟨e, ⟨he, hin⟩, rfl⟩
      exact ⟨e, he, by simpa using hin, rfl, rfl⟩
    · rintro ⟨e, he, hin, h1, h2⟩
      refine ⟨e, ⟨he, by simpa using hin⟩, ?_⟩
      rw [h1, h2]

/-- Witness for c10_embeddings_archived: the unrestricted branch at a concrete
store with one non-archived embedded node. -/
theorem c10_embeddings_archived_witness :
    (("n2", [(2 : ℚ)]) ∈ get_all_embeddings
        [{ id := "n2", type := "note", title := "t", body := "b", created_at := "c",
           updated_at := "u" }]
        [{ node_id := "n2", vector := [2], model := "m", created_at := "c" }] none) ∧
    (∃ n, n ∈ [({ id := "n2", type := "note", title := "t", body := "b",
                  created_at := "c", updated_at := "u" } : Node)] ∧
            n.id = "n2" ∧ n.archived = false) :=
  ⟨by decide, c10_embeddings_archived.1
    [{ id := "n2", type := "note", title := "t", body := "b", created_at := "c",
       updated_at := "u" }]
    [{ node_id := "n2", vector := [2], model := "m", created_at := "c" }]
    ("n2", [2]) (by decide)⟩

/-- INSERT OR REPLACE followed by a key lookup returns the new row. -/
theorem get_sync_state_set (table : List SyncState) (s : SyncState) :
    get_sync_state (set_sync_state table s) s.connector s.source_key = some s := by
  unfold get_sync_state set_sync_state
  rw [List.find?_append]
  have h1 : (table.filter fun x => ¬ (x.connector = s.connector ∧ x.source_key = s.source_key)).find?
      (fun x => x.connector = s.connector ∧ x.source_key = s.source_key) = none := by
    rw [List.find?_eq_none]
    intro x hx
    have hmem := (List.mem_filter.mp hx).2
    simp only [decide_eq_true_eq] at hmem ⊢
    tauto
  rw [h1]
  simp

/-- A document loop appends exactly the labelled error of each non-skipped
failing file to the incoming error list, and its final store is the fold of
every non-skipped file's processor — failures never stop the loop. -/
theorem doc_pass_spec {σ : Type} (proc : σ → MdFile → DocEffect σ)
    (label : MdFile → String) (skip : MdFile → Bool) (fs : List MdFile) :
    ∀ (store : σ) (res : SyncResult),
    (doc_pass proc label skip store res fs).2.errors =
      res.errors ++ doc_errors proc label skip store fs ∧
    (doc_pass proc label skip store res fs).1 = doc_store proc skip store fs := by
  induction fs with
  | nil => intro store res; simp [doc_pass, doc_errors, doc_store]
  | cons f fs ih =>
    intro store res
    by_cases hs : skip f = true
    · simp only [doc_pass, doc_errors, doc_store, hs, if_true]
      exact ih store res
    · simp only [doc_pass, doc_errors, doc_store, hs, Bool.false_eq_true, if_false]
      obtain ⟨h1, h2⟩ := ih (proc store f).store
        { res with
          nodes_created := res.nodes_created + (proc store f).created,
          nodes_updated := res.nodes_updated + (proc store f).updated,
          edges_created := res.edges_created + (proc store f).edges,
          errors := res.errors ++
            (match (proc store f).err with
             | some m => [label f ++ ": " ++ m]
             | none => []) }
      refine ⟨?_, h2⟩
      rw [h1]
      simp [List.append_assoc]

/-- Claim C3: a sync pass over a scope that completes its document loops sets
the scope's sync cursor (last_sync and cursor) to the current time
unconditionally — the final state of the sync_state table resolves
(wcp, namespace) to the new timestamps whatever the document processors did or
raised; the scope result's error list is exactly one "document: message" entry
per non-skipped document whose processing raised, in order, work items labelled
by file name and artifacts by path; and the final store is the fold of every
non-skipped document's processor — an earlier failure never stops the
processing of the remaining documents. -/
theorem c3_sync_cursor_and_errors {σ : Type} (table : List SyncState) (store : σ)
    (ns : String) (full : Bool) (now : String)
    (md_files artifact_files : List MdFile)
    (proc_work proc_artifact : σ → MdFile → DocEffect σ) :
    get_sync_state
        (sync_namespace table store ns full now md_files artifact_files
          proc_work proc_artifact).1 "wcp" ns =
      some { connector := "wcp", source_key := ns,
             last_sync := some now, cursor := some now } ∧
    (sync_namespace table store ns full now md_files artifact_files
        proc_work proc_artifact).2.2.errors =
      doc_errors proc_work (fun f => f.name)
          (wcp_skip (wcp_last_sync table ns full) full) store md_files ++
        doc_errors proc_artifact (fun f => f.path)
          (wcp_skip (wcp_last_sync table ns full) full)
          (doc_store proc_work (wcp_skip (wcp_last_sync table ns full) full) store md_files)
          artifact_files ∧
    (sync_namespace table store ns full now md_files artifact_files
        proc_work proc_artifact).2.1 =
      doc_store proc_artifact (wcp_skip (wcp_last_sync table ns full) full)
        (doc_store proc_work (wcp_skip (wcp_last_sync table ns full) full) store md_files)
        artifact_files := by
  refine ⟨?_, ?_, ?_⟩
  · show get_sync_state (set_sync_state table _) "wcp" ns = _
    exact get_sync_state_set table
      { connector := "wcp", source_key := ns, last_sync := some now, cursor := some now }
  · show (doc_pass proc_artifact _ _ (doc_pass proc_work _ _ store _ md_files).1
        (doc_pass proc_work _ _ store _ md_files).2 artifact_files).2.errors = _
    obtain ⟨e1, s1⟩ := doc_pass_spec proc_work (fun f => f.name)
      (wcp_skip (wcp_last_sync table ns full) full) md_files store
      { connector := "wcp", source_key := ns }
    obtain ⟨e2, s2⟩ := doc_pass_spec proc_artifact (fun f => f.path)
      (wcp_skip (wcp_last_sync table ns full) full) artifact_files
      (doc_pass proc_work (fun f => f.name)
        (wcp_skip (wcp_last_sync table ns full) full) store
        { connector := "wcp", source_key := ns } md_files).1
      (doc_pass proc_work (fun f => f.name)
        (wcp_skip (wcp_last_sync table ns full) full) store
        { connector := "wcp", source_key := ns } md_files).2
    rw [e2, e1, s1]
    simp
  · show (doc_pass proc_artifact _ _ (doc_pass proc_work _ _ store _ md_files).1
        (doc_pass proc_work _ _ store _ md_files).2 artifact_files).1 = _
    obtain ⟨-, s1⟩ := doc_pass_spec proc_work (fun f => f.name)
      (wcp_skip (wcp_last_sync table ns full) full) md_files store
      { connector := "wcp", source_key := ns }
    obtain ⟨-, s2⟩ := doc_pass_spec proc_artifact (fun f => f.path)
      (wcp_skip (wcp_last_sync table ns full) full) artifact_files
      (doc_pass proc_work (fun f => f.name)
        (wcp_skip (wcp_last_sync table ns full) full) store
        { connector := "wcp", source_key := ns } md_files).1
      (doc_pass proc_work (fun f => f.name)
        (wcp_skip (wcp_last_sync table ns full) full) store
        { connector := "wcp", source_key := ns } md_files).2
    rw [s2, s1]

/-- A min-fold is bounded by its initial accumulator. -/
theorem foldl_min_le_init (xs : List ℚ) : ∀ a : ℚ, xs.foldl min a ≤ a := by
  induction xs with
  | nil => intro a; exact le_refl a
  | cons x xs ih =>
    intro a
    calc (x :: xs).foldl min a = xs.foldl min (min a x) := rfl
      _ ≤ min a x := ih (min a x)
      _ ≤ a := min_le_left a x

/-- A min-fold is bounded by every list element. -/
theorem foldl_min_le_mem (xs : List ℚ) : ∀ (a y : ℚ), y ∈ xs → xs.foldl min a ≤ y := by
  induction xs with
  | nil => intro a y hy; simp at hy
  | cons x xs ih =>
    intro a y hy
    rcases List.mem_cons.mp hy with rfl | hy
    · calc xs.foldl min (min a y) ≤ min a y := foldl_min_le_init xs (min a y)
        _ ≤ y := min_le_right a y
    · exact ih (min a x) y hy

/-- A min-fold returns its accumulator or a list element. -/
theorem foldl_min_mem (xs : List ℚ) : ∀ a : ℚ, xs.foldl min a = a ∨ xs.foldl min a ∈ xs := by
  induction xs with
  | nil => intro a; exact Or.inl rfl
  | cons x xs ih =>
    intro a
    rcases ih (min a x) with h | h
    · rcases min_choice a x with hm | hm
      · exact Or.inl (by rw [show (x :: xs).foldl min a = xs.foldl min (min a x) from rfl, h, hm])
      · refine Or.inr (List.mem_cons.mpr (Or.inl ?_))
        rw [show (x :: xs).foldl min a = xs.foldl min (min a x) from rfl, h, hm]
    · exact Or.inr (List.mem_cons.mpr (Or.inr h))

/-- A max-fold is bounded below by its initial accumulator. -/
theorem le_foldl_max_init (xs : List ℚ) : ∀ a : ℚ, a ≤ xs.foldl max a := by
  induction xs with
  | nil => intro a; exact le_refl a
  | cons x xs ih =>
    intro a
    calc a ≤ max a x := le_max_left a x
      _ ≤ xs.foldl max (max a x) := ih (max a x)
      _ = (x :: xs).foldl max a := rfl

/-- A max-fold is bounded below by every list element. -/
theorem le_foldl_max_mem (xs : List ℚ) : ∀ (a y : ℚ), y ∈ xs → y ≤ xs.foldl max a := by
  induction xs with
  | nil => intro a y hy; simp at hy
  | cons x xs ih =>
    intro a y hy
    rcases List.mem_cons.mp hy with rfl | hy
    · calc y ≤ max a y := le_max_right a y
        _ ≤ xs.foldl max (max a y) := le_foldl_max_init xs (max a y)
    · exact ih (max a x) y hy

/-- A max-fold returns its accumulator or a list element. -/
theorem foldl_max_mem (xs : List ℚ) : ∀ a : ℚ, xs.foldl max a = a ∨ xs.foldl max a ∈ xs := by
  induction xs with
  | nil => intro a; exact Or.inl rfl
  | cons x xs ih =>
    intro a
    rcases ih (max a x) with h | h
    · rcases max_choice a x with hm | hm
      · exact Or.inl (by rw [show (x :: xs).foldl max a = xs.foldl max (max a x) from rfl, h, hm])
      · refine Or.inr (List.mem_cons.mpr (Or.inl ?_))
        rw [show (x :: xs).foldl max a = xs.foldl max (max a x) from rfl, h, hm]
    · exact Or.inr (List.mem_cons.mpr (Or.inr h))

/-- list_min bounds every element of the list. -/
theorem list_min_le {xs : List ℚ} {y : ℚ} (hy : y ∈ xs) : list_min xs ≤ y := by
  cases xs with
  | nil => simp at hy
  | cons x xs =>
    rcases List.mem_cons.mp hy with rfl | hy
    · exact foldl_min_le_init xs y
    · exact foldl_min_le_mem xs x y hy

/-- list_max bounds every element of the list. -/
theorem le_list_max {xs : List ℚ} {y : ℚ} (hy : y ∈ xs) : y ≤ list_max xs := by
  cases xs with
  | nil => simp at hy
  | cons x xs =>
    rcases List.mem_cons.mp hy with rfl | hy
    · exact le_foldl_max_init xs y
    · exact le_foldl_max_mem xs x y hy

/-- list_min of a non-empty list is one of its elements. -/
theorem list_min_mem {xs : List ℚ} (h : xs ≠ []) : list_min xs ∈ xs := by
  cases xs with
  | nil => exact absurd rfl h
  | cons x xs =>
    rcases foldl_min_mem xs x with h1 | h1
    · exact List.mem_cons.mpr (Or.inl h1)
    · exact List.mem_cons.mpr (Or.inr h1)

/-- list_max of a non-empty list is one of its elements. -/
theorem list_max_mem {xs : List ℚ} (h : xs ≠ []) : list_max xs ∈ xs := by
  cases xs with
  | nil => exact absurd rfl h
  | cons x xs =>
    rcases foldl_max_mem xs x with h1 | h1
    · exact List.mem_cons.mpr (Or.inl h1)
    · exact List.mem_cons.mpr (Or.inr h1)

/-- Claim C4: for every non-empty raw lexical candidate list (lower raw score =
better), the normalization of _search_fts maps every candidate into [0,1],
maps a candidate carrying the lowest raw score to exactly 1, maps a candidate
carrying the highest raw score to exactly 0 when the scores are not all equal,
and maps every candidate to 1 when all raw scores are equal. -/
theorem c4_fts_normalization (raw : List (String × ℚ)) (hne : raw ≠ []) :
    (_search_fts raw).length = raw.length ∧
    (∀ p ∈ _search_fts raw, 0 ≤ p.2 ∧ p.2 ≤ 1) ∧
    (∀ (i : Nat) (hi : i < raw.length) (ho : i < (_search_fts raw).length),
      ((raw.get ⟨i, hi⟩).2 = list_min (raw.map Prod.snd) →
        ((_search_fts raw).get ⟨i, ho⟩).2 = 1) ∧
      ((¬ ∀ p ∈ raw, ∀ q ∈ raw, p.2 = q.2) →
        (raw.get ⟨i, hi⟩).2 = list_max (raw.map Prod.snd) →
        ((_search_fts raw).get ⟨i, ho⟩).2 = 0) ∧
      ((∀ p ∈ raw, ∀ q ∈ raw, p.2 = q.2) →
        ((_search_fts raw).get ⟨i, ho⟩).2 = 1)) := by
  obtain ⟨r, rs, rfl⟩ : ∃ r rs, raw = r :: rs := by
    cases raw with
    | nil => exact absurd rfl hne
    | cons r rs => exact ⟨r, rs, rfl⟩
  have hout : _search_fts (r :: rs) = (r :: rs).map (fun p =>
      (p.1, if list_max ((r :: rs).map Prod.snd) - list_min ((r :: rs).map Prod.snd) > 0
            then (list_max ((r :: rs).map Prod.snd) - p.2) /
              (list_max ((r :: rs).map Prod.snd) - list_min ((r :: rs).map Prod.snd))
            else 1)) := rfl
  have hmem_le : ∀ p ∈ r :: rs, list_min ((r :: rs).map Prod.snd) ≤ p.2 :=
    fun p hp => list_min_le (List.mem_map_of_mem Prod.snd hp)
  have hmem_ge : ∀ p ∈ r :: rs, p.2 ≤ list_max ((r :: rs).map Prod.snd) :=
    fun p hp => le_list_max (List.mem_map_of_mem Prod.snd hp)
  have hminmax : list_min ((r :: rs).map Prod.snd) ≤ list_max ((r :: rs).map Prod.snd) :=
    le_trans (hmem_le r (List.mem_cons_self r rs)) (hmem_ge r (List.mem_cons_self r rs))
  have hnot_pos : (¬ ∀ p ∈ r :: rs, ∀ q ∈ r :: rs, p.2 = q.2) →
      0 < list_max ((r :: rs).map Prod.snd) - list_min ((r :: rs).map Prod.snd) := by
    intro hneq
    by_contra hle
    push_neg at hle
    refine hneq (fun p hp q hq => ?_)
    have h1 := hmem_le p hp
    have h2 := hmem_ge p hp
    have h3 := hmem_le q hq
    have h4 := hmem_ge q hq
    linarith
  have hall_zero : (∀ p ∈ r :: rs, ∀ q ∈ r :: rs, p.2 = q.2) →
      list_max ((r :: rs).map Prod.snd) - list_min ((r :: rs).map Prod.snd) = 0 := by
    intro hall
    obtain ⟨pm, hpm, hpm2⟩ := List.mem_map.mp
      (@list_min_mem ((r :: rs).map Prod.snd) (by simp))
    obtain ⟨pM, hpM, hpM2⟩ := List.mem_map.mp
      (@list_max_mem ((r :: rs).map Prod.snd) (by simp))
    have := hall pm hpm pM hpM
    rw [← hpm2, ← hpM2, this]
    ring
  refine ⟨by rw [hout]; simp, ?_, ?_⟩
  · intro p hp
    rw [hout] at hp
    obtain ⟨q, hq, rfl⟩ := List.mem_map.mp hp
    by_cases hpos : list_max ((r :: rs).map Prod.snd) - list_min ((r :: rs).map Prod.snd) > 0
    · simp only [hpos, if_true]
      constructor
      · exact div_nonneg (by linarith [hmem_ge q hq]) hpos.le
      · exact (div_le_one hpos).mpr (by linarith [hmem_le q hq])
    · simp only [hpos, if_false]
      exact ⟨zero_le_one, le_refl 1⟩
  · intro i hi ho
    have hgeti : ((_search_fts (r :: rs)).get ⟨i, ho⟩).2 =
        (if list_max ((r :: rs).map Prod.snd) - list_min ((r :: rs).map Prod.snd) > 0
         then (list_max ((r :: rs).map Prod.snd) - ((r :: rs).get ⟨i, hi⟩).2) /
           (list_max ((r :: rs).map Prod.snd) - list_min ((r :: rs).map Prod.snd))
         else 1) := by
      simp only [List.get_eq_getElem, hout, List.getElem_map]
    refine ⟨?_, ?_, ?_⟩
    · intro hmin
      rw [hgeti, hmin]
      by_cases hpos : list_max ((r :: rs).map Prod.snd) - list_min ((r :: rs).map Prod.snd) > 0
      · simp only [hpos, if_true]
        exact div_self (ne_of_gt hpos)
      · simp only [hpos, if_false]
    · intro hneq hmax
      have hpos := hnot_pos hneq
      rw [hgeti, hmax]
      simp only [hpos, if_true, sub_self, zero_div]
    · intro hall
      have hzero := hall_zero hall
      rw [hgeti, hzero]
      simp

/-- Witness for c4_fts_normalization at a concrete raw candidate list. -/
theorem c4_fts_normalization_witness :
    ([("a", (3 : ℚ)), ("b", 1), ("c", 2)] ≠ ([] : List (String × ℚ))) ∧
    (_search_fts [("a", (3 : ℚ)), ("b", 1), ("c", 2)]).length =
      ([("a", (3 : ℚ)), ("b", 1), ("c", 2)]).length :=
  ⟨by simp, (c4_fts_normalization [("a", (3 : ℚ)), ("b", 1), ("c", 2)] (by simp)).1⟩

/-- Claim C8: for a nonnegative recencyBoost, the recency bonus equals the full
boost when the age is at most 7 days, equals 0 when the age is at least 90 days
or the timestamp is missing or unparseable, equals
recencyBoost * (90 - age) / (90 - 7) for ages strictly between 7 and 90 days,
and is monotonically decreasing in the age on [7, 90]. -/
theorem c8_recency_boost (mb : ℚ) (hmb : 0 ≤ mb) :
    (∀ age : ℚ, age ≤ 7 → _recency_boost (some age) mb = mb) ∧
    (∀ age : ℚ, 90 ≤ age → _recency_boost (some age) mb = 0) ∧
    _recency_boost none mb = 0 ∧
    (∀ age : ℚ, 7 < age → age < 90 →
      _recency_boost (some age) mb = mb * (90 - age) / (90 - 7)) ∧
    (∀ a1 a2 : ℚ, 7 ≤ a1 → a1 ≤ a2 → a2 ≤ 90 →
      _recency_boost (some a2) mb ≤ _recency_boost (some a1) mb) := by
  have hval : ∀ age : ℚ, 7 < age → age < 90 →
      _recency_boost (some age) mb = mb * (90 - age) / (90 - 7) := by
    intro age h7 h90
    simp only [_recency_boost, not_le.mpr h7, if_false, not_le.mpr h90]
  refine ⟨?_, ?_, rfl, hval, ?_⟩
  · intro age h7
    simp [_recency_boost, h7]
  · intro age h90
    simp only [_recency_boost]
    rcases lt_or_le (7 : ℚ) age with h7 | h7
    · simp [not_le.mpr h7, h90]
    · linarith
  · intro a1 a2 h7 h12 h90
    have hb_nonneg : ∀ age : ℚ, 0 ≤ _recency_boost (some age) mb := by
      intro age
      simp only [_recency_boost]
      split
      · exact hmb
      · split
        · exact le_refl 0
        · rename_i hx hy
          push_neg at hx hy
          apply div_nonneg (mul_nonneg hmb (by linarith))
          norm_num
    have hb_le_mb : ∀ age : ℚ, _recency_boost (some age) mb ≤ mb := by
      intro age
      simp only [_recency_boost]
      split
      · exact le_refl mb
      · split
        · exact hmb
        · rename_i hx hy
          push_neg at hx hy
          rw [div_le_iff₀ (by norm_num : (0 : ℚ) < 90 - 7)]
          nlinarith
    rcases le_or_lt a2 7 with h2le | h2gt
    · rw [(by simp [_recency_boost, h2le] : _recency_boost (some a2) mb = mb),
          (by simp [_recency_boost, le_trans h12 h2le] : _recency_boost (some a1) mb = mb)]
    · rcases le_or_lt (90 : ℚ) a2 with h2ge | h2lt
      · rw [(by simp only [_recency_boost, not_le.mpr h2gt, if_false, h2ge, if_true] :
            _recency_boost (some a2) mb = 0)]
        exact hb_nonneg a1
      · rw [hval a2 h2gt h2lt]
        rcases le_or_lt a1 7 with h1le | h1gt
        · rw [(by simp [_recency_boost, h1le] : _recency_boost (some a1) mb = mb)]
          calc mb * (90 - a2) / (90 - 7) ≤ mb * (90 - 7) / (90 - 7) := by
                apply div_le_div_of_nonneg_right ?_ (by norm_num)
                · exact mul_le_mul_of_nonneg_left (by linarith) hmb
            _ = mb := by field_simp
        · rw [hval a1 h1gt (lt_of_le_of_lt h12 h2lt)]
          apply div_le_div_of_nonneg_right ?_ (by norm_num)
          · exact mul_le_mul_of_nonneg_left (by linarith) hmb

/-- Witness for c8_recency_boost: boost 1/10, a 3-day-old node gets it in full. -/
theorem c8_recency_boost_witness :
    (0 : ℚ) ≤ 1 / 10 ∧ ((3 : ℚ) ≤ 7 ∧ _recency_boost (some 3) (1 / 10) = 1 / 10) :=
  ⟨by norm_num, by norm_num, (c8_recency_boost (1 / 10) (by norm_num)).1 3 (by norm_num)⟩

/-- Lookup in a cons cell: head key wins, otherwise look in the tail. -/
theorem dict_lookup_cons {α : Type} (a : String) (b : α) (c : List (String × α))
    (x : String) :
    dict_lookup ((a, b) :: c) x = if a = x then some b else dict_lookup c x := by
  by_cases h : a = x
  · simp [dict_lookup, List.find?_cons_of_pos, h]
  · rw [if_neg h]
    unfold dict_lookup
    rw [List.find?_cons_of_neg]
    simpa using h

/-- Lookup distributes over append, first list first. -/
theorem dict_lookup_append {α : Type} (c1 c2 : List (String × α)) (x : String) :
    dict_lookup (c1 ++ c2) x = (dict_lookup c1 x).or (dict_lookup c2 x) := by
  unfold dict_lookup
  rw [List.find?_append]
  cases c1.find? (fun p => p.1 = x) <;> simp

/-- A key outside the key list looks up to none. -/
theorem dict_lookup_eq_none {α : Type} {c : List (String × α)} {x : String}
    (h : x ∉ c.map Prod.fst) : dict_lookup c x = none := by
  unfold dict_lookup
  rw [List.find?_eq_none.mpr]
  · rfl
  · intro p hp hpx
    exact h (List.mem_map.mpr ⟨p, hp, by simpa using hpx⟩)

/-- Key membership is lookup success. -/
theorem mem_keys_iff_lookup_isSome {α : Type} (c : List (String × α)) (x : String) :
    x ∈ c.map Prod.fst ↔ (dict_lookup c x).isSome := by
  unfold dict_lookup
  have hiso : ∀ o : Option (String × α), (o.map Prod.snd).isSome = o.isSome := by
    intro o
    cases o <;> rfl
  rw [hiso, List.find?_isSome]
  simp only [List.mem_map, decide_eq_true_eq]

/-- dict_has is key membership. -/
theorem dict_has_iff_mem_keys {α : Type} (c : List (String × α)) (x : String) :
    dict_has c x = true ↔ x ∈ c.map Prod.fst := by
  unfold dict_has
  rw [List.any_eq_true]
  simp only [List.mem_map, decide_eq_true_eq]

/-- With duplicate-free keys, membership determines the lookup. -/
theorem dict_lookup_of_mem_nodup {α : Type} {c : List (String × α)} {k : String}
    {v : α} (hmem : (k, v) ∈ c) (hnd : (c.map Prod.fst).Nodup) :
    dict_lookup c k = some v := by
  induction c with
  | nil => simp at hmem
  | cons a c ih =>
    have hnd' : a.1 ∉ c.map Prod.fst ∧ (c.map Prod.fst).Nodup := by
      rw [List.map_cons, List.nodup_cons] at hnd
      exact hnd
    rcases List.mem_cons.mp hmem with rfl | hmem2
    · simp [dict_lookup, List.find?_cons_of_pos]
    · have hne : a.1 ≠ k := by
        intro h
        exact hnd'.1 (h ▸ List.mem_map.mpr ⟨(k, v), hmem2, rfl⟩)
      obtain ⟨a1, a2⟩ := a
      rw [dict_lookup_cons, if_neg hne]
      exact ih hmem2 hnd'.2

/-- Updating the value stored at one key changes only that key's lookup. -/
theorem dict_lookup_map_update {α : Type} (c : List (String × α)) (k : String)
    (f : α → α) (x : String) :
    dict_lookup (c.map (fun q => if q.1 = k then (q.1, f q.2) else q)) x =
      if x = k then (dict_lookup c k).map f else dict_lookup c x := by
  induction c with
  | nil => by_cases h : x = k <;> simp [dict_lookup, h]
  | cons a c ih =>
    obtain ⟨a1, a2⟩ := a
    by_cases ha : a1 = k <;> by_cases hx : x = k
    · subst ha
      subst hx
      simp [List.map_cons, dict_lookup_cons, ih]
    · subst ha
      have ha1x : ¬ a1 = x := fun h => hx h.symm
      simp [List.map_cons, dict_lookup_cons, ha1x, hx, ih]
    · subst hx
      simp [List.map_cons, dict_lookup_cons, ha, ih]
    · by_cases ha1x : a1 = x
      · subst ha1x
        simp [List.map_cons, dict_lookup_cons, ha, hx, ih]
      · simp [List.map_cons, dict_lookup_cons, ha, ha1x, hx, ih]

/-- dict_set keys: unchanged on overwrite, extended by the new key on append. -/
theorem dict_set_keys {α : Type} (c : List (String × α)) (k : String) (v : α) :
    (dict_set c k v).map Prod.fst =
      if dict_has c k then c.map Prod.fst else c.map Prod.fst ++ [k] := by
  unfold dict_set
  by_cases h : dict_has c k = true
  · rw [if_pos h, if_pos h]
    rw [List.map_map]
    apply List.map_congr_left
    intro p _
    by_cases hp : p.1 = k <;> simp [hp]
  · rw [if_neg h, if_neg h]
    simp

/-- dict_set at a fresh key is an append. -/
theorem dict_set_not_has {α : Type} {c : List (String × α)} {k : String} (v : α)
    (h : dict_has c k = false) : dict_set c k v = c ++ [(k, v)] := by
  unfold dict_set
  rw [h]
  simp

/-- A value-only update leaves the key list unchanged. -/
theorem keys_map_update {α : Type} (c : List (String × α)) (k : String) (f : α → α) :
    (c.map (fun q => if q.1 = k then (q.1, f q.2) else q)).map Prod.fst =
      c.map Prod.fst := by
  rw [List.map_map]
  apply List.map_congr_left
  intro p _
  by_cases hp : p.1 = k <;> simp [hp]

/-- The first merge loop of combine_scores, generalized over a starting dict
with disjoint keys: it appends every lexical candidate with vector 0. -/
theorem fold1_spec (fts : List (String × ℚ)) :
    ∀ (c : List (String × ℚ × ℚ)),
      (fts.map Prod.fst).Nodup →
      (∀ k, k ∈ c.map Prod.fst → k ∉ fts.map Prod.fst) →
      (∀ x, dict_lookup (fts.foldl (fun c p => dict_set c p.1 (p.2, (0 : ℚ))) c) x =
        (dict_lookup c x).or ((dict_lookup fts x).map (fun s => (s, (0 : ℚ))))) ∧
      (fts.foldl (fun c p => dict_set c p.1 (p.2, (0 : ℚ))) c).map Prod.fst =
        c.map Prod.fst ++ fts.map Prod.fst := by
  induction fts with
  | nil =>
    intro c hnd hdisj
    constructor
    · intro x
      rw [List.foldl_nil]
      rw [show dict_lookup ([] : List (String × ℚ)) x = none from rfl]
      cases h : dict_lookup c x <;> simp [h]
    · simp
  | cons p ps ih =>
    obtain ⟨p1, p2⟩ := p
    intro c hnd hdisj
    have hnd' : p1 ∉ ps.map Prod.fst ∧ (ps.map Prod.fst).Nodup := by
      rw [List.map_cons, List.nodup_cons] at hnd
      exact hnd
    have hp_notin : p1 ∉ c.map Prod.fst := by
      intro h
      exact hdisj p1 h (by simp)
    have hhas : dict_has c p1 = false := by
      cases hb : dict_has c p1
      · rfl
      · exact absurd ((dict_has_iff_mem_keys c p1).mp hb) hp_notin
    have hdisj2 : ∀ k, k ∈ (c ++ [(p1, (p2, (0 : ℚ)))]).map Prod.fst →
        k ∉ ps.map Prod.fst := by
      intro k hk
      rw [List.map_append, List.mem_append] at hk
      rcases hk with hk | hk
      · intro hmem
        exact hdisj k hk (by simp [hmem])
      · simp only [List.map_cons, List.map_nil, List.mem_singleton] at hk
        subst hk
        exact hnd'.1
    obtain ⟨hl, hk⟩ := ih (c ++ [(p1, (p2, 0))]) hnd'.2 hdisj2
    rw [List.foldl_cons]
    rw [show dict_set c p1 (p2, (0 : ℚ)) = c ++ [(p1, (p2, 0))] from dict_set_not_has _ hhas]
    constructor
    · intro x
      rw [hl x, dict_lookup_append]
      by_cases hx : p1 = x
      · subst hx
        have hps_none : dict_lookup ps p1 = none := dict_lookup_eq_none hnd'.1
        have hc_none : dict_lookup c p1 = none := dict_lookup_eq_none hp_notin
        simp only [dict_lookup_cons, if_pos rfl, hps_none, hc_none]
        rfl
      · simp only [dict_lookup_cons, if_neg hx]
        rw [show dict_lookup ([] : List (String × ℚ × ℚ)) x = none from rfl]
        cases h : dict_lookup c x <;> simp [h]
    · rw [hk, List.map_append]
      simp

/-- The second merge loop of combine_scores, generalized over a starting dict
with duplicate-free keys: a vector candidate either fills the vector slot of an
existing entry or is appended with lexical 0. -/
theorem fold2_spec (vec : List (String × ℚ)) :
    ∀ (c : List (String × ℚ × ℚ)),
      (vec.map Prod.fst).Nodup →
      (c.map Prod.fst).Nodup →
      (∀ x, dict_lookup (vec.foldl
          (fun c p =>
            if dict_has c p.1 then c.map (fun q => if q.1 = p.1 then (q.1, q.2.1, p.2) else q)
            else c ++ [(p.1, ((0 : ℚ), p.2))]) c) x =
        match dict_lookup c x, dict_lookup vec x with
        | some fv, some v2 => some (fv.1, v2)
        | some fv, none => some fv
        | none, some v2 => some ((0 : ℚ), v2)
        | none, none => none) ∧
      ((vec.foldl
          (fun c p =>
            if dict_has c p.1 then c.map (fun q => if q.1 = p.1 then (q.1, q.2.1, p.2) else q)
            else c ++ [(p.1, ((0 : ℚ), p.2))]) c).map Prod.fst).Nodup := by
  induction vec with
  | nil =>
    intro c hnd hndc
    refine ⟨fun x => ?_, hndc⟩
    rw [List.foldl_nil]
    rw [show dict_lookup ([] : List (String × ℚ)) x = none from rfl]
    cases h : dict_lookup c x <;> simp [h]
  | cons p ps ih =>
    obtain ⟨p1, p2⟩ := p
    intro c hnd hndc
    have hnd' : p1 ∉ ps.map Prod.fst ∧ (ps.map Prod.fst).Nodup := by
      rw [List.map_cons, List.nodup_cons] at hnd
      exact hnd
    have hps_none : dict_lookup ps p1 = none := dict_lookup_eq_none hnd'.1
    rw [List.foldl_cons]
    by_cases hhas : dict_has c p1 = true
    · obtain ⟨fv, hfv⟩ : ∃ fv, dict_lookup c p1 = some fv := by
        have hmem := (dict_has_iff_mem_keys c p1).mp hhas
        rw [mem_keys_iff_lookup_isSome] at hmem
        exact Option.isSome_iff_exists.mp hmem
      rw [if_pos hhas]
      have hkeys : ((c.map (fun q => if q.1 = p1 then (q.1, q.2.1, p2) else q)).map
          Prod.fst) = c.map Prod.fst := by
        rw [List.map_map]
        apply List.map_congr_left
        intro q _
        by_cases hq : q.1 = p1 <;> simp [hq]
      obtain ⟨hl, hk⟩ := ih (c.map (fun q => if q.1 = p1 then (q.1, q.2.1, p2) else q))
        hnd'.2 (by rw [hkeys]; exact hndc)
      refine ⟨fun x => ?_, hk⟩
      rw [hl x]
      have hup := dict_lookup_map_update c p1 (fun v => (v.1, p2)) x
      have hfun : (fun q : String × ℚ × ℚ => if q.1 = p1 then (q.1, q.2.1, p2) else q) =
          (fun q : String × ℚ × ℚ =>
            if q.1 = p1 then (q.1, (fun v : ℚ × ℚ => (v.1, p2)) q.2) else q) := rfl
      by_cases hx : x = p1
      · subst hx
        rw [hfun, hup, if_pos rfl, hfv, hps_none, dict_lookup_cons, if_pos rfl]
        rfl
      · have hp1x : ¬ p1 = x := fun h => hx h.symm
        rw [hfun, hup, if_neg hx, dict_lookup_cons, if_neg hp1x]
    · have hhasf : dict_has c p1 = false := by
        cases hb : dict_has c p1
        · rfl
        · exact absurd hb hhas
      have hp_notin : p1 ∉ c.map Prod.fst := by
        intro h
        exact hhas ((dict_has_iff_mem_keys c p1).mpr h)
      have hc_none : dict_lookup c p1 = none := dict_lookup_eq_none hp_notin
      rw [if_neg hhas]
      have hnd2 : ((c ++ [(p1, ((0 : ℚ), p2))]).map Prod.fst).Nodup := by
        rw [List.map_append, List.nodup_append]
        refine ⟨hndc, by simp, ?_⟩
        intro k hk hk2
        simp only [List.map_cons, List.map_nil, List.mem_singleton] at hk2
        subst hk2
        exact hp_notin hk
      obtain ⟨hl, hk⟩ := ih (c ++ [(p1, ((0 : ℚ), p2))]) hnd'.2 hnd2
      refine ⟨fun x => ?_, hk⟩
      rw [hl x, dict_lookup_append]
      by_cases hx : x = p1
      · subst hx
        simp only [dict_lookup_cons, if_pos rfl, hc_none, hps_none]
        rfl
      · have hp1x : ¬ p1 = x := fun h => hx h.symm
        simp only [dict_lookup_cons, if_neg hp1x]
        rw [show dict_lookup ([] : List (String × ℚ × ℚ)) x = none from rfl]
        cases h : dict_lookup c x <;> simp [h]

/-- Inserting into the sorted accumulator is a permutation of consing. -/
theorem insert_desc_perm {α : Type} (key : α → ℚ) (x : α) (l : List α) :
    (insert_desc key x l).Perm (x :: l) := by
  induction l with
  | nil => exact List.Perm.refl _
  | cons y ys ih =>
    unfold insert_desc
    by_cases h : key y < key x
    · rw [if_pos h]
    · rw [if_neg h]
      exact (List.Perm.cons y ih).trans (List.Perm.swap x y ys)

/-- Membership in the insertion result. -/
theorem mem_insert_desc {α : Type} (key : α → ℚ) (x z : α) (l : List α) :
    z ∈ insert_desc key x l ↔ z = x ∨ z ∈ l := by
  rw [(insert_desc_perm key x l).mem_iff, List.mem_cons]

/-- Insertion preserves descending sortedness. -/
theorem insert_desc_sorted {α : Type} (key : α → ℚ) (x : α) {l : List α}
    (hs : l.Pairwise (fun a b => key b ≤ key a)) :
    (insert_desc key x l).Pairwise (fun a b => key b ≤ key a) := by
  induction l with
  | nil => simp [insert_desc]
  | cons y ys ih =>
    rw [List.pairwise_cons] at hs
    unfold insert_desc
    by_cases h : key y < key x
    · rw [if_pos h, List.pairwise_cons]
      refine ⟨?_, List.pairwise_cons.mpr hs⟩
      intro z hz
      rcases List.mem_cons.mp hz with rfl | hz
      · exact le_of_lt h
      · exact le_trans (hs.1 z hz) (le_of_lt h)
    · rw [if_neg h, List.pairwise_cons]
      refine ⟨?_, ih hs.2⟩
      intro z hz
      rcases (mem_insert_desc key x z ys).mp hz with rfl | hz
      · exact not_lt.mp h
      · exact hs.1 z hz

/-- The stable sort is a permutation of its input. -/
theorem sort_desc_perm {α : Type} (key : α → ℚ) (l : List α) :
    (sort_desc key l).Perm l := by
  have hgen : ∀ (l acc : List α),
      (l.foldl (fun acc x => insert_desc key x acc) acc).Perm (acc ++ l) := by
    intro l
    induction l with
    | nil => intro acc; simp
    | cons x xs ih =>
      intro acc
      rw [List.foldl_cons]
      refine (ih (insert_desc key x acc)).trans ?_
      refine (List.Perm.append_right xs (insert_desc_perm key x acc)).trans ?_
      exact List.perm_middle.symm
  simpa using hgen l []

/-- The stable sort output is sorted descending by key. -/
theorem sort_desc_sorted {α : Type} (key : α → ℚ) (l : List α) :
    (sort_desc key l).Pairwise (fun a b => key b ≤ key a) := by
  have hgen : ∀ (l acc : List α), acc.Pairwise (fun a b => key b ≤ key a) →
      (l.foldl (fun acc x => insert_desc key x acc) acc).Pairwise
        (fun a b => key b ≤ key a) := by
    intro l
    induction l with
    | nil => intro acc h; simpa using h
    | cons x xs ih =>
      intro acc h
      rw [List.foldl_cons]
      exact ih _ (insert_desc_sorted key x h)
  exact hgen l [] (List.Pairwise.nil)

/-- The merged candidate dict of search: lookups combine the two signals with
0 for a missing one, and its keys are duplicate-free. -/
theorem combine_scores_spec (fts_results vector_results : List (String × ℚ))
    (hf : (fts_results.map Prod.fst).Nodup)
    (hv : (vector_results.map Prod.fst).Nodup) :
    (∀ x, dict_lookup (combine_scores fts_results vector_results) x =
      match dict_lookup fts_results x, dict_lookup vector_results x with
      | some f, some v => some (f, v)
      | some f, none => some (f, (0 : ℚ))
      | none, some v => some ((0 : ℚ), v)
      | none, none => none) ∧
    ((combine_scores fts_results vector_results).map Prod.fst).Nodup := by
  obtain ⟨hl1, hk1⟩ := fold1_spec fts_results [] hf (by simp)
  have hnd1 : ((fts_results.foldl (fun c p => dict_set c p.1 (p.2, (0 : ℚ))) []).map
      Prod.fst).Nodup := by
    rw [hk1]
    simpa using hf
  obtain ⟨hl2, hk2⟩ := fold2_spec vector_results
    (fts_results.foldl (fun c p => dict_set c p.1 (p.2, (0 : ℚ))) []) hv hnd1
  refine ⟨fun x => ?_, hk2⟩
  show dict_lookup (vector_results.foldl _
    (fts_results.foldl (fun c p => dict_set c p.1 (p.2, (0 : ℚ))) [])) x = _
  rw [hl2 x, hl1 x]
  rw [show dict_lookup ([] : List (String × ℚ × ℚ)) x = none from rfl]
  cases h1 : dict_lookup fts_results x <;> cases h2 : dict_lookup vector_results x <;> simp

/-- A node lookup built from a row list by find? on id is id-sound. -/
theorem find?_node_sound (nodes : List Node) :
    ∀ id n, nodes.find? (fun m => m.id = id) = some n → n.id = id := by
  intro id n h
  simpa using List.find?_some h

/-- Claim C6: hybrid search merges the lexical and vector candidate sets by
node id, assigns 0.0 for the signal a node is missing from rather than
excluding it, scores each merged candidate as lexical * 0.4 + vector * 0.6,
sorts by final score descending, truncates to limit, and returns only
candidates whose node record still resolves. Candidate lists are assumed keyed
(duplicate-free ids) and the node lookup returns nodes carrying the queried
id, as the database does. -/
theorem c6_hybrid_search (fts_results vector_results : List (String × ℚ))
    (limit : Nat) (get_node : String → Option Node)
    (hf : (fts_results.map Prod.fst).Nodup)
    (hv : (vector_results.map Prod.fst).Nodup)
    (hg : ∀ id n, get_node id = some n → n.id = id) :
    (∀ r ∈ search fts_results vector_results limit get_node,
      get_node r.node.id = some r.node ∧
      r.score = (dict_lookup fts_results r.node.id).getD 0 * FTS_WEIGHT +
        (dict_lookup vector_results r.node.id).getD 0 * VECTOR_WEIGHT) ∧
    (search fts_results vector_results limit get_node).Pairwise
      (fun a b => b.score ≤ a.score) ∧
    (search fts_results vector_results limit get_node).length ≤ limit ∧
    (∀ id, id ∈ (combine_scores fts_results vector_results).map Prod.fst ↔
      (id ∈ fts_results.map Prod.fst ∨ id ∈ vector_results.map Prod.fst)) := by
  obtain ⟨hlook, hnd⟩ := combine_scores_spec fts_results vector_results hf hv
  have hsearch : search fts_results vector_results limit get_node =
      ((sort_desc (fun x : String × ℚ => x.2)
          ((combine_scores fts_results vector_results).map
            (fun q => (q.1, q.2.1 * FTS_WEIGHT + q.2.2 * VECTOR_WEIGHT)))).take limit).filterMap
        (fun p => (get_node p.1).map
          (fun n => { node := n, score := p.2, match_type := "combined" })) := rfl
  refine ⟨?_, ?_, ?_, ?_⟩
  · intro r hr
    rw [hsearch, List.mem_filterMap] at hr
    obtain ⟨p, hp_top, hp_eq⟩ := hr
    rw [Option.map_eq_some'] at hp_eq
    obtain ⟨n, hn, rfl⟩ := hp_eq
    have hid : n.id = p.1 := hg p.1 n hn
    have hp_scored : p ∈ (combine_scores fts_results vector_results).map
        (fun q => (q.1, q.2.1 * FTS_WEIGHT + q.2.2 * VECTOR_WEIGHT)) :=
      (sort_desc_perm (fun x : String × ℚ => x.2) _).mem_iff.mp
        ((List.take_sublist limit _).subset hp_top)
    rw [List.mem_map] at hp_scored
    obtain ⟨q, hq, hpq⟩ := hp_scored
    have hlq : dict_lookup (combine_scores fts_results vector_results) q.1 = some q.2 := by
      apply dict_lookup_of_mem_nodup ?_ hnd
      rw [show (q.1, q.2) = q from rfl]
      exact hq
    rw [hlook q.1] at hlq
    have hp1 : p.1 = q.1 := by rw [← hpq]
    have hp2 : p.2 = q.2.1 * FTS_WEIGHT + q.2.2 * VECTOR_WEIGHT := by rw [← hpq]
    constructor
    · show get_node n.id = some n
      rw [hid]
      exact hn
    · show p.2 = (dict_lookup fts_results n.id).getD 0 * FTS_WEIGHT +
        (dict_lookup vector_results n.id).getD 0 * VECTOR_WEIGHT
      rw [hid, hp1, hp2]
      cases h1 : dict_lookup fts_results q.1 <;>
        cases h2 : dict_lookup vector_results q.1 <;>
        rw [h1, h2] at hlq <;> simp only [Option.some.injEq] at hlq <;>
        try simp at hlq
      all_goals (rw [← hlq]; simp)
  · rw [hsearch]
    rw [List.pairwise_filterMap]
    have htop : ((sort_desc (fun x : String × ℚ => x.2)
        ((combine_scores fts_results vector_results).map
          (fun q => (q.1, q.2.1 * FTS_WEIGHT + q.2.2 * VECTOR_WEIGHT)))).take limit).Pairwise
        (fun a b => b.2 ≤ a.2) :=
      List.Pairwise.sublist (List.take_sublist limit _)
        (sort_desc_sorted (fun x : String × ℚ => x.2) _)
    refine htop.imp ?_
    intro a b hab
    intro r1 hr1 r2 hr2
    rw [Option.mem_def, Option.map_eq_some'] at hr1 hr2
    obtain ⟨n1, -, rfl⟩ := hr1
    obtain ⟨n2, -, rfl⟩ := hr2
    exact hab
  · rw [hsearch]
    exact le_trans (List.length_filterMap_le _ _) (List.length_take_le _ _)
  · intro id
    rw [mem_keys_iff_lookup_isSome, hlook id,
      mem_keys_iff_lookup_isSome, mem_keys_iff_lookup_isSome]
    cases dict_lookup fts_results id <;> cases dict_lookup vector_results id <;> simp

/-- The node rows backing the C6 witness lookup. -/
def c6w_nodes : List Node :=
  [{ id := "a", type := "note", title := "ta", body := "ba", created_at := "c", updated_at := "u" },
   { id := "b", type := "note", title := "tb", body := "bb", created_at := "c", updated_at := "u" }]

/-- The C6 witness node lookup (get_node backed by the row list). -/
def c6w_get : String → Option Node := fun id => c6w_nodes.find? (fun n => n.id = id)

/-- Witness for c6_hybrid_search at a concrete store: one lexical candidate,
one vector candidate, limit 2. -/
theorem c6_hybrid_search_witness :
    (([("a", (1 : ℚ))].map Prod.fst).Nodup ∧ ([("b", (1 : ℚ))].map Prod.fst).Nodup) ∧
    (search [("a", (1 : ℚ))] [("b", (1 : ℚ))] 2 c6w_get).length ≤ 2 :=
  ⟨⟨by decide, by decide⟩,
   (c6_hybrid_search [("a", (1 : ℚ))] [("b", (1 : ℚ))] 2 c6w_get (by decide) (by decide)
     (find?_node_sound c6w_nodes)).2.2.1⟩

/-- The append loop of context_search decomposes into the project results
followed by the unseen-id cross extras. -/
theorem cross_append_eq (results cross_results : List SearchResult) :
    cross_append results cross_results =
      results ++ cross_extras (results.map (fun r => r.node.id)) cross_results := by
  have hgen : ∀ (cs acc : List SearchResult) (seen : List String),
      (cs.foldl
        (fun (acc2 : List SearchResult × List String) r =>
          if r.node.id ∈ acc2.2 then acc2 else (acc2.1 ++ [r], acc2.2 ++ [r.node.id]))
        (acc, seen)).1 = acc ++ cross_extras seen cs := by
    intro cs
    induction cs with
    | nil =>
      intro acc seen
      simp [cross_extras]
    | cons r rs ih =>
      intro acc seen
      rw [List.foldl_cons]
      by_cases h : r.node.id ∈ seen
      · rw [show (if r.node.id ∈ (acc, seen).2 then (acc, seen)
            else ((acc, seen).1 ++ [r], (acc, seen).2 ++ [r.node.id])) = (acc, seen)
            from if_pos h]
        rw [ih acc seen]
        rw [show cross_extras seen (r :: rs) = if r.node.id ∈ seen then cross_extras seen rs
            else r :: cross_extras (seen ++ [r.node.id]) rs from rfl, if_pos h]
      · rw [show (if r.node.id ∈ (acc, seen).2 then (acc, seen)
            else ((acc, seen).1 ++ [r], (acc, seen).2 ++ [r.node.id])) =
            (acc ++ [r], seen ++ [r.node.id]) from if_neg h]
        rw [ih (acc ++ [r]) (seen ++ [r.node.id])]
        rw [show cross_extras seen (r :: rs) = if r.node.id ∈ seen then cross_extras seen rs
            else r :: cross_extras (seen ++ [r.node.id]) rs from rfl, if_neg h]
        simp
  exact hgen cross_results results (results.map (fun r => r.node.id))

/-- Every appended cross result carries an id outside the seen list. -/
theorem cross_extras_unseen :
    ∀ (cross_results : List SearchResult) (seen : List String) (r : SearchResult),
      r ∈ cross_extras seen cross_results → r.node.id ∉ seen := by
  intro cross_results
  induction cross_results with
  | nil =>
    intro seen r hr
    simp [cross_extras] at hr
  | cons x xs ih =>
    intro seen r hr
    unfold cross_extras at hr
    by_cases h : x.node.id ∈ seen
    · rw [if_pos h] at hr
      exact ih seen r hr
    · rw [if_neg h] at hr
      rcases List.mem_cons.mp hr with rfl | hr2
      · exact h
      · intro hcontra
        exact (ih _ r hr2) (by simp [hcontra])

/-- Claim C7 (amended): with a project given, contextSearch appends a
cross-project result only when its id is not already present — before boosting
and truncation the list is exactly the project-scoped results followed by the
unseen-id cross extras, so no project-scoped match is dropped or overwritten at
the append stage; every final result is a merged entry with its recency bonus
added; the final list is sorted by boosted score descending and truncated to
limit — at that truncation a project-scoped match can be displaced by
higher-scoring results. -/
theorem c7_context_search (results cross_results : List SearchResult) (limit : Nat)
    (rb : ℚ) (age_of : String → Option ℚ) :
    cross_append results cross_results =
      results ++ cross_extras (results.map (fun r => r.node.id)) cross_results ∧
    (∀ r ∈ cross_extras (results.map (fun r => r.node.id)) cross_results,
      r.node.id ∉ results.map (fun r => r.node.id)) ∧
    (∀ r ∈ context_search results cross_results true limit rb age_of,
      ∃ m, m ∈ cross_append results cross_results ∧
        r = { m with score := m.score + _recency_boost (age_of m.node.updated_at) rb }) ∧
    (context_search results cross_results true limit rb age_of).Pairwise
      (fun a b => b.score ≤ a.score) ∧
    (context_search results cross_results true limit rb age_of).length ≤ limit := by
  have hcs : context_search results cross_results true limit rb age_of =
      (sort_desc (fun r : SearchResult => r.score)
        ((cross_append results cross_results).map
          (fun r => { r with
            score := r.score + _recency_boost (age_of r.node.updated_at) rb }))).take limit := rfl
  refine ⟨cross_append_eq results cross_results,
    fun r hr => cross_extras_unseen cross_results _ r hr, ?_, ?_, ?_⟩
  · intro r hr
    rw [hcs] at hr
    have hr2 : r ∈ (cross_append results cross_results).map
        (fun r => { r with
          score := r.score + _recency_boost (age_of r.node.updated_at) rb }) :=
      (sort_desc_perm (fun r : SearchResult => r.score) _).mem_iff.mp
        ((List.take_sublist limit _).subset hr)
    rw [List.mem_map] at hr2
    obtain ⟨m, hm, rfl⟩ := hr2
    exact ⟨m, hm, rfl⟩
  · rw [hcs]
    exact List.Pairwise.sublist (List.take_sublist limit _)
      (sort_desc_sorted (fun r : SearchResult => r.score) _)
  · rw [hcs]
    exact List.length_take_le _ _

/-- The three nodes of the C7 displacement scenario. -/
def c7_nodeA : Node :=
  { id := "A", type := "note", title := "t", body := "b", created_at := "c", updated_at := "u" }

/-- Second project-scoped node of the C7 scenario. -/
def c7_nodeB : Node :=
  { id := "B", type := "note", title := "t", body := "b", created_at := "c", updated_at := "u" }

/-- The cross-project node of the C7 scenario. -/
def c7_nodeC : Node :=
  { id := "C", type := "note", title := "t", body := "b", created_at := "c", updated_at := "u" }

/-- Project-scoped search results of the C7 scenario. -/
def c7_results : List SearchResult :=
  [{ node := c7_nodeA, score := 5 }, { node := c7_nodeB, score := 4 }]

/-- Cross-project (unscoped) search results of the C7 scenario. -/
def c7_cross : List SearchResult :=
  [{ node := c7_nodeC, score := 9 }]

/-- Claim C7 counterexample: node B is found by the project-scoped search, the
cross-project result C is appended, and after re-sorting and truncating to
limit 2 the final list is [C, A] — the project-scoped match B has been
displaced by the cross-project result. -/
theorem c7_counterexample :
    "B" ∈ c7_results.map (fun r => r.node.id) ∧
    (context_search c7_results c7_cross true 2 (1 / 10) (fun _ => none)).map
      (fun r => r.node.id) = ["C", "A"] := by
  constructor
  · decide
  · norm_num [context_search, cross_append, _recency_boost, sort_desc, insert_desc,
      c7_results, c7_cross, c7_nodeA, c7_nodeB, c7_nodeC,
      show ("C" : String) ≠ "A" from by decide, show ("C" : String) ≠ "B" from by decide]

/-- Witness for c7_context_search: the appended-only-if-unseen conjunct at the
concrete C7 scenario. -/
theorem c7_context_search_witness :
    ({ node := c7_nodeC, score := (9 : ℚ) } ∈
      cross_extras (c7_results.map (fun r => r.node.id)) c7_cross) ∧
    ({ node := c7_nodeC, score := (9 : ℚ) } : SearchResult).node.id ∉
      c7_results.map (fun r => r.node.id) :=
  ⟨by decide,
   (c7_context_search c7_results c7_cross 2 (1 / 10) (fun _ => none)).2.1
     { node := c7_nodeC, score := (9 : ℚ) } (by decide)⟩
